import Mathlib

/-!
Verification development for the hybrid multi-stage retrieval and ranking
engine (`rag/core/retriever.py` and `rag/core/vector_database.py`).

The Python code is shallowly embedded: scores (Python floats) are modelled
as rationals `ℚ` for the fusion/rerank/diversity pipeline, and as reals `ℝ`
for the vector index (whose cosine normalization needs square roots).
Strings are modelled as `List Char`; Python dicts keyed by `chunk_id` as
association lists preserving insertion order; Python's stable `sort` as
`List.insertionSort` with a non-strict "greater or equal on the key"
comparator (insertion sort in that form is stable, like Python's sort).
The external cross-encoder model call is a parameter: `none` models the
call raising an exception.
-/

set_option maxHeartbeats 2000000
set_option maxRecDepth 8000

/-! ## Python text primitives -/

/-- Accumulator-based splitter behind `pySplitWs`; `cur` is the reversed
current word. -/
def pyWordsGo (cur : List Char) : List Char → List (List Char)
  | [] => if cur.isEmpty then [] else [cur.reverse]
  | c :: cs =>
    if c.isWhitespace then
      if cur.isEmpty then pyWordsGo [] cs else cur.reverse :: pyWordsGo [] cs
    else
      pyWordsGo (c :: cur) cs

/-- Python `str.split()` with no separator: maximal runs of non-whitespace
characters, empty words dropped. -/
def pySplitWs (s : List Char) : List (List Char) :=
  pyWordsGo [] s

/-- Python `str.lower()` (ASCII contents suffice for this code base). -/
def lowerChars (s : List Char) : List Char :=
  s.map Char.toLower

/-- Whether `s` starts with `pat`. -/
def listStartsWith : List Char → List Char → Bool
  | [], _ => true
  | _ :: _, [] => false
  | p :: ps, c :: cs => p == c && listStartsWith ps cs

/-- Python `pat in s` substring containment on strings. -/
def containsSeq (pat : List Char) : List Char → Bool
  | [] => listStartsWith pat []
  | c :: cs => listStartsWith pat (c :: cs) || containsSeq pat cs

/-- Python `s.split('. ')`: split on the exact two-character separator,
keeping empty pieces (so `''.split('. ') == ['']`). -/
def pySplitDotSpace : List Char → List (List Char)
  | [] => [[]]
  | '.' :: ' ' :: rest => [] :: pySplitDotSpace rest
  | c :: rest =>
    match pySplitDotSpace rest with
    | [] => [[c]]
    | w :: ws => (c :: w) :: ws

/-- Python `sep.join(pieces)`. -/
def joinWith (sep : List Char) : List (List Char) → List Char
  | [] => []
  | [x] => x
  | x :: y :: ys => x ++ sep ++ joinWith sep (y :: ys)

/-! ## Data model (`RetrievalResult` dataclass and the retriever's
configuration fields from `MultiStageRetriever.__init__`) -/

/-- Chunk metadata keys read by the retriever (`section`, `subsection`,
`page_number`, `token_count`, `chunk_type`); `sectionName` stands for the
`section` key (a Lean keyword). -/
structure ChunkMetadata where
  sectionName : Option (List Char) := none
  subsection : Option (List Char) := none
  page_number : Option Int := none
  token_count : Option Int := none
  chunk_type : Option (List Char) := none

/-- The `RetrievalResult` dataclass: accumulator flowing through the
pipeline stages. Defaults mirror the dataclass defaults. -/
structure RetrievalResult where
  chunk_id : String
  content : List Char
  metadata : ChunkMetadata
  dense_score : ℚ
  sparse_score : ℚ
  hybrid_score : ℚ
  rerank_score : Option ℚ := none
  final_score : Option ℚ := none
  rank_position : Nat := 0

/-- Configuration state stored by `MultiStageRetriever.__init__` (the
fields the ranking pipeline reads). -/
structure MultiStageRetriever where
  dense_weight : ℚ
  sparse_weight : ℚ
  max_initial_results : Nat
  max_reranked_results : Nat
  max_final_results : Nat
  context_window_size : Int

/-- `MultiStageRetriever.__init__` with the signature's default values for
the non-weight parameters: the constructor only stores the weights — there
is no validation of `dense_weight + sparse_weight` anywhere in it. -/
def multi_stage_retriever_init (dense_weight sparse_weight : ℚ) : MultiStageRetriever :=
  { dense_weight := dense_weight
    sparse_weight := sparse_weight
    max_initial_results := 50
    max_reranked_results := 10
    max_final_results := 5
    context_window_size := 10000 }

/-! ## Stable descending sort (Python `list.sort(key=..., reverse=True)`) -/

/-- Python's stable sort with `reverse=True`: insertion sort with the
non-strict comparator "key of the left is at least key of the right" is
stable and sorts descending by `key`. -/
def pySortDesc {α : Type} {κ : Type} [LinearOrder κ] (key : α → κ) (l : List α) : List α :=
  @List.insertionSort α (fun a b => key b ≤ key a)
    (fun a b => inferInstanceAs (Decidable (key b ≤ key a))) l

/-! ## Hybrid fusion and boosting (`_combine_retrieval_results`,
`_calculate_context_boost`, `_apply_position_aware_ranking`) -/

/-- Python `max(x, *xs)` via left fold, as `max(list)` computes it. -/
def pyListMax {κ : Type} [LinearOrder κ] (x : κ) (xs : List κ) : κ :=
  xs.foldl max x

/-- Python `min(x, *xs)` via left fold. -/
def pyListMin {κ : Type} [LinearOrder κ] (x : κ) (xs : List κ) : κ :=
  xs.foldl min x

/-- The min-max normalization inlined in `_combine_retrieval_results`
(lines 477-507): on a non-empty score list, `range` is `max - min` when
`max > min` and `1.0` otherwise, and the normalized value is
`(x - min) / range` (the `range > 0` guard always holds); on an empty
score list the raw value is kept. -/
def normalize_fusion_score (scores : List ℚ) (x : ℚ) : ℚ :=
  match scores with
  | [] => x
  | s :: ss =>
    let mx := pyListMax s ss
    let mn := pyListMin s ss
    let range := if mx > mn then mx - mn else 1
    if range > 0 then (x - mn) / range else x

/-- `_calculate_context_boost`: multiplicative metadata/content boosts,
capped at 1.3. -/
def calculate_context_boost (result : RetrievalResult) : ℚ :=
  let boost : ℚ := 1
  let clen := result.content.length
  let boost :=
    if 800 ≤ clen ∧ clen ≤ 2000 then boost * (11/10)
    else if 3000 < clen then boost * (95/100)
    else boost
  let boost :=
    match result.metadata.sectionName with
    | some sec =>
      if sec.isEmpty then boost
      else
        let s := lowerChars sec
        if ["procedure".data, "step".data, "guide".data, "how to".data].any
            (fun k => containsSeq k s) then boost * (115/100)
        else if ["overview".data, "introduction".data, "summary".data].any
            (fun k => containsSeq k s) then boost * (105/100)
        else boost
    | none => boost
  let boost :=
    if 200 ≤ result.metadata.token_count.getD 0 ∧ result.metadata.token_count.getD 0 ≤ 1500
    then boost * (108/100) else boost
  let boost :=
    if result.metadata.chunk_type.getD [] = "semantic".data then boost * (105/100) else boost
  min boost (13/10)

/-- Python `combined[chunk_id] = r` on an insertion-ordered dict modelled
as a list: overwrite in place if the key exists, else append. -/
def dictInsert (m : List RetrievalResult) (r : RetrievalResult) : List RetrievalResult :=
  if m.any (fun x => x.chunk_id == r.chunk_id) then
    m.map (fun x => if x.chunk_id == r.chunk_id then r else x)
  else m ++ [r]

/-- `_apply_position_aware_ranking`: sort descending by hybrid score,
multiply the i-th of the first 15 results by `1 - i * 0.005`, re-sort. -/
def apply_position_aware_ranking (results : List RetrievalResult) : List RetrievalResult :=
  let sorted := pySortDesc (fun r => r.hybrid_score) results
  let adjusted := (List.enumFrom 0 sorted).map (fun p =>
    if p.1 < 15 then { p.2 with hybrid_score := p.2.hybrid_score * (1 - (p.1 : ℚ) * (5/1000)) }
    else p.2)
  pySortDesc (fun r => r.hybrid_score) adjusted

/-- `_combine_retrieval_results`: normalize each signal, merge by
`chunk_id` into an insertion-ordered dict, recompute hybrid scores for
results seen in the sparse list (dense-only entries keep the hybrid score
they arrived with), then apply position-aware ranking. -/
def combine_retrieval_results (cfg : MultiStageRetriever)
    (dense_results sparse_results : List RetrievalResult) : List RetrievalResult :=
  let dense_scores := dense_results.map (fun r => r.dense_score)
  let sparse_scores := sparse_results.map (fun r => r.sparse_score)
  let combined := dense_results.foldl (fun m r =>
    dictInsert m { r with dense_score := normalize_fusion_score dense_scores r.dense_score }) []
  let combined := sparse_results.foldl (fun m r =>
    let ns := normalize_fusion_score sparse_scores r.sparse_score
    match m.find? (fun x => x.chunk_id == r.chunk_id) with
    | some e =>
      let e1 := { e with sparse_score := ns }
      let base := e1.dense_score * cfg.dense_weight + ns * cfg.sparse_weight
      let e2 := { e1 with hybrid_score := base * calculate_context_boost e1 }
      m.map (fun x => if x.chunk_id == r.chunk_id then e2 else x)
    | none =>
      let r1 := { r with sparse_score := ns }
      m ++ [{ r1 with hybrid_score := ns * cfg.sparse_weight * calculate_context_boost r1 }]) combined
  apply_position_aware_ranking combined

/-- A result as `_dense_retrieval` constructs it (line 381-388): raw dense
score, zero sparse score, hybrid pre-set to `dense_score * dense_weight`. -/
def mk_dense_result (cfg : MultiStageRetriever) (cid : String) (score : ℚ) : RetrievalResult :=
  { chunk_id := cid
    content := []
    metadata := {}
    dense_score := score
    sparse_score := 0
    hybrid_score := score * cfg.dense_weight }

/-- A result as `_sparse_retrieval` constructs it (line 445-452): raw
sparse score, zero dense score, hybrid pre-set to
`sparse_score * sparse_weight`. -/
def mk_sparse_result (cfg : MultiStageRetriever) (cid : String) (score : ℚ) : RetrievalResult :=
  { chunk_id := cid
    content := []
    metadata := {}
    dense_score := 0
    sparse_score := score
    hybrid_score := score * cfg.sparse_weight }

/-! ## Reranking (`_rerank_results`, `_cross_encoder_score`,
`_advanced_similarity_score`) -/

/-- Batch normalization inside `_cross_encoder_score` (lines 656-665):
two or more scores are min-max normalized when the range is positive and
all set to `1.0` otherwise; a single score becomes `[1.0]`; an empty batch
stays empty. -/
def cross_encoder_normalize (scores : List ℚ) : List ℚ :=
  if 1 < scores.length then
    match scores with
    | [] => []
    | s :: ss =>
      let mn := pyListMin s ss
      let mx := pyListMax s ss
      if mn < mx then (s :: ss).map (fun x => (x - mn) / (mx - mn))
      else List.replicate (s :: ss).length 1
  else if scores.length = 1 then [1] else []

/-- `_cross_encoder_score`: the external `predict` call's outcome is a
parameter (`none` models the call raising an exception anywhere in the
`try` block); the handler returns the neutral score `0.5` for every
candidate (lines 669-671), and the success path normalizes the batch. -/
def cross_encoder_score (predictOutcome : Option (List ℚ))
    (candidates : List RetrievalResult) : List ℚ :=
  match predictOutcome with
  | none => List.replicate candidates.length (1/2)
  | some scores => cross_encoder_normalize scores

/-- `_advanced_similarity_score`: deterministic fallback combining word
overlap, substring presence and a length preference, weighted
0.4/0.4/0.2 and clamped to [0, 1]. Python's word sets are modelled as
deduplicated lists (only membership and distinct counts are used). -/
def advanced_similarity_score (query : List Char)
    (candidates : List RetrievalResult) : List ℚ :=
  let query_words := (pySplitWs (lowerChars query)).dedup
  candidates.map (fun r =>
    let content_lower := lowerChars r.content
    let content_words := pySplitWs content_lower
    let overlap_score : ℚ :=
      if query_words.isEmpty then 0
      else ((query_words.filter (fun w => decide (w ∈ content_words))).length : ℚ) /
        query_words.length
    let substring_score : ℚ :=
      if query_words.isEmpty then 0
      else ((query_words.filter (fun w => containsSeq w content_lower)).length : ℚ) /
        query_words.length
    let content_length := r.content.length
    let length_penalty : ℚ :=
      if 0 < content_length then
        if 500 < content_length then min 1 (500 / (content_length : ℚ)) else 1
      else 0
    min (overlap_score * (4/10) + substring_score * (4/10) + length_penalty * (2/10)) 1)

/-- Rank assignment after the final sort
(`for i, result in enumerate(reranked): result.rank_position = i + 1`). -/
def assign_rank_positions (l : List RetrievalResult) : List RetrievalResult :=
  (List.enumFrom 0 l).map (fun p => { p.2 with rank_position := p.1 + 1 })

/-- `_rerank_results`: take the top `max_reranked_results` candidates,
score them (cross-encoder path when the model loaded, deterministic
fallback otherwise), set `final_score = hybrid_score*0.6 + rerank*0.4`,
sort descending by final score (stable), assign 1-based rank positions.
The source assigns every candidate's `final_score` before the sort, so
the `getD` default below is never read. `attach_rerank_score` is the loop
body setting `rerank_score` and `final_score = hybrid*0.6 + rerank*0.4`. -/
def attach_rerank_score (r : RetrievalResult) (s : ℚ) : RetrievalResult :=
  { r with
      rerank_score := some s
      final_score := some (r.hybrid_score * (6/10) + s * (4/10)) }

/-- `_rerank_results` (continued): candidates scored, finalized, sorted,
ranked. -/
def rerank_results (cfg : MultiStageRetriever) (query : List Char)
    (results : List RetrievalResult) (encoderLoaded : Bool)
    (predictOutcome : Option (List ℚ)) : List RetrievalResult :=
  let candidates := results.take cfg.max_reranked_results
  let rerank_scores :=
    if encoderLoaded then cross_encoder_score predictOutcome candidates
    else advanced_similarity_score query candidates
  let reranked := List.zipWith attach_rerank_score candidates rerank_scores
  assign_rank_positions (pySortDesc (fun r => r.final_score.getD 0) reranked)

/-! ## Diversity injection (`_apply_diversity_injection`) -/

/-- `set(content.lower().split()[:20])`: the first-20-token keyword
sample, as a deduplicated list (set semantics: only membership and the
count of distinct elements are used below). -/
def content_keyword_sample (content : List Char) : List (List Char) :=
  ((pySplitWs (lowerChars content)).take 20).dedup

/-- Token-overlap ratio of a candidate's keyword sample against the
already-used keywords: `len(used ∩ sample) / len(sample)`, `0` for an
empty sample. -/
def overlapFrac (used : List (List Char)) (sample : List (List Char)) : ℚ :=
  if sample.isEmpty then 0
  else ((sample.filter (fun w => decide (w ∈ used))).length : ℚ) / sample.length

/-- Loop of `_apply_diversity_injection` over the candidates after the
top result; `count` is the current length of `diverse_results`; the loop
breaks right after the appended result makes that length reach 10.
`used ++ sample` models `used_keywords.update(content_keywords)` (only
membership in `used` is ever consulted). -/
def diversity_loop (used : List (List Char)) (count : Nat) :
    List RetrievalResult → List RetrievalResult
  | [] => []
  | r :: rs =>
    let sample := content_keyword_sample r.content
    if overlapFrac used sample < 7/10 ∨ 9/10 < r.final_score.getD 0 then
      if 10 ≤ count + 1 then [r]
      else r :: diversity_loop (used ++ sample) (count + 1) rs
    else diversity_loop used count rs

/-- `_apply_diversity_injection`: lists of at most 3 results are returned
unchanged (no filtering); otherwise the top result is always kept and the
loop admits later candidates. The `query` parameter is unused, as in the
source. -/
def apply_diversity_injection (results : List RetrievalResult)
    (query : List Char) : List RetrievalResult :=
  if results.length ≤ 3 then results
  else
    match results with
    | [] => []
    | r0 :: rest => r0 :: diversity_loop (content_keyword_sample r0.content) 1 rest

/-! ## Context fusion and token budgeting (`_context_fusion`,
`_estimate_tokens`, `_smart_truncate`, `_extract_section_info`) -/

/-- `_extract_section_info`: join the present metadata parts with " | ". -/
def extract_section_info (m : ChunkMetadata) : List Char :=
  let parts :=
    (match m.sectionName with | some s => [s] | none => []) ++
    (match m.subsection with | some s => [s] | none => []) ++
    (match m.page_number with
     | some n => ["Page ".data ++ Nat.toDigits 10 n.toNat]
     | none => [])
  joinWith (" | ".data) parts

/-- `_estimate_tokens`: `int(len(text.split()) * 0.75)`, i.e. `⌊3w/4⌋`
for word count `w` (the float product is exact for these magnitudes). -/
def estimate_tokens (text : List Char) : Nat :=
  (pySplitWs text).length * 3 / 4

/-- Sentence-accumulation loop of `_smart_truncate`: keep whole sentences
while the running word count fits, stop at the first that does not. -/
def greedy_sentences (max_words : Nat) (current : Nat) :
    List (List Char) → List (List Char)
  | [] => []
  | s :: ss =>
    let w := (pySplitWs s).length
    if current + w ≤ max_words then s :: greedy_sentences max_words (current + w) ss
    else []

/-- `_smart_truncate` (lines 851-880): non-positive budgets yield the
empty string; `int(max_tokens / 0.75)` is `⌊4m/3⌋` for positive `m`;
short contents are returned whole; otherwise sentences (split on `'. '`)
are accumulated greedily and re-joined, falling back to a raw word cut
when no sentence fits. -/
def smart_truncate (content : List Char) (max_tokens : Int) : List Char :=
  if max_tokens ≤ 0 then []
  else
    let max_words : Nat := max_tokens.toNat * 4 / 3
    let words := pySplitWs content
    if words.length ≤ max_words then content
    else
      let sentences := pySplitDotSpace content
      let picked := greedy_sentences max_words 0 sentences
      if picked.isEmpty then joinWith [' '] (words.take max_words)
      else joinWith ('.' :: ' ' :: []) picked

/-- Zero-padding of a digit string to width 3 (for the `:.3f` fraction). -/
def pad3 (ds : List Char) : List Char :=
  List.replicate (3 - ds.length) '0' ++ ds

/-- Fixed-point rendering `f"{q:.3f}"` for the non-negative
exact-thousandths scores used here, via integer arithmetic on the
rational's numerator and denominator. -/
def format3 (q : ℚ) : List Char :=
  let n : Int := Int.fdiv (q.num * 1000) (q.den : Int)
  Nat.toDigits 10 (n.toNat / 1000) ++ '.' :: pad3 (Nat.toDigits 10 (n.toNat % 1000))

/-- The per-source context header
`f"=== SOURCE {i+1} {section_info} ===\n{relevance_info}\n"`. -/
def context_header (i : Nat) (r : RetrievalResult) : List Char :=
  "=== SOURCE ".data ++ Nat.toDigits 10 (i + 1) ++ [' '] ++
    extract_section_info r.metadata ++ " ===".data ++ ['\n'] ++
    "Relevance: ".data ++ format3 (r.final_score.getD 0) ++ ['\n']

/-- Budget loop of `_context_fusion` (lines 752-789): append whole
blocks that fit the remaining budget; on the first that does not, if more
than 100 tokens remain, truncate it sentence-aware (appending the
`... [TRUNCATED]` marker when non-empty) and stop; otherwise stop.
Returns the assembled blocks and the final `total_tokens`. -/
def context_budget_loop (available_tokens : Int) :
    Nat → Int → List RetrievalResult → List (List Char) × Int
  | _, total_tokens, [] => ([], total_tokens)
  | i, total_tokens, r :: rs =>
    let header := context_header i r
    let context_part := header ++ r.content
    let estimated : Int := estimate_tokens context_part
    if total_tokens + estimated ≤ available_tokens then
      let rest := context_budget_loop available_tokens (i + 1) (total_tokens + estimated) rs
      (context_part :: rest.1, rest.2)
    else if 100 < available_tokens - total_tokens then
      let truncated := smart_truncate r.content
        (available_tokens - total_tokens - header.length - 20)
      if truncated.isEmpty then ([], total_tokens)
      else
        let truncated_part := header ++ truncated ++ "... [TRUNCATED]".data
        ([truncated_part], total_tokens + estimate_tokens truncated_part)
    else ([], total_tokens)

/-- The budgeting stage of `_context_fusion` applied to the diversified
results: 200 reserved tokens, then the budget loop from zero. -/
def context_fusion_blocks (cfg : MultiStageRetriever)
    (diverse : List RetrievalResult) : List (List Char) × Int :=
  context_budget_loop (cfg.context_window_size - 200) 0 0 diverse

/-! ## Vector database (`FaissVectorDatabase`, FLAT/cosine configuration,
the one `MultiStageRetriever` constructs). Vectors are real-valued; the
exact inner-product search of `faiss.IndexFlatIP` is modelled as a
descending stable sort of the scored rows. -/

/-- Sum of squares of a vector. -/
def sumSq (v : List ℝ) : ℝ :=
  (v.map (fun x => x * x)).sum

/-- Inner product of two equal-length rows. -/
def dotList (a b : List ℝ) : ℝ :=
  (List.zipWith (fun x y => x * y) a b).sum

/-- `_normalize_vectors` on one row: divide by the L2 norm; zero-norm
rows are left unchanged (the `np.where(norms == 0, 1, norms)` guard). -/
noncomputable def normalize_vector (v : List ℝ) : List ℝ :=
  let n := Real.sqrt (sumSq v)
  if n = 0 then v else v.map (fun x => x / n)

/-- Both dimension checks of the vector database raise `ValueError`
naming the expected and actual dimensions. -/
inductive VDBError where
  | dimensionMismatch (expected got : Nat) : VDBError
deriving DecidableEq

/-- State of `FaissVectorDatabase` (FLAT/cosine): stored rows are the
normalized vectors in insertion order paired with their chunk ids
(the `id_to_chunk_id` mapping). -/
structure FaissVectorDatabase where
  embedding_dimension : Nat
  stored : List (String × List ℝ)

/-- `add_embeddings` (FLAT/cosine path): empty input returns `False`
without error; any embedding whose length differs from the index
dimension raises (the first eagerly at line 187, the others in the
validation loop at line 195 or the ragged `np.array` conversion);
otherwise every vector is normalized and appended unchanged in length. -/
noncomputable def add_embeddings (db : FaissVectorDatabase)
    (inputs : List (String × List ℝ)) : Except VDBError (Bool × FaissVectorDatabase) :=
  if inputs.isEmpty then .ok (false, db)
  else
    match inputs.find? (fun p => p.2.length != db.embedding_dimension) with
    | some p => .error (.dimensionMismatch db.embedding_dimension p.2.length)
    | none => .ok (true,
        { db with stored := db.stored ++ inputs.map (fun p => (p.1, normalize_vector p.2)) })

/-- `search_dense`: an empty database short-circuits to `[]` BEFORE the
dimension validation (lines 266-272); a mismatched query then raises;
otherwise normalize the query and return the `min(k, total_vectors)`
stored rows of highest inner product, descending, ties in insertion
order. -/
noncomputable def search_dense (db : FaissVectorDatabase)
    (query_embedding : List ℝ) (k : Nat) : Except VDBError (List (String × ℝ)) :=
  if db.stored.isEmpty then .ok []
  else if query_embedding.length != db.embedding_dimension then
    .error (.dimensionMismatch db.embedding_dimension query_embedding.length)
  else
    let qn := normalize_vector query_embedding
    let scored := db.stored.map (fun p => (p.1, dotList qn p.2))
    .ok ((pySortDesc Prod.snd scored).take (min k db.stored.length))

/-! ## Concrete scenario inputs -/

/-- The default configuration: weights 0.7/0.3 and the signature's other
defaults. -/
def cfg_default : MultiStageRetriever := multi_stage_retriever_init (7/10) (3/10)

/-- Pathological candidate for the context budgeter: content is `". "`
repeated 200 times (200 words, 201 empty sentences), empty metadata,
reranked with final score 0. -/
def budget_bug_result : RetrievalResult :=
  { chunk_id := "c1"
    content := (List.replicate 200 ('.' :: ' ' :: [])).flatten
    metadata := {}
    dense_score := 0
    sparse_score := 0
    hybrid_score := 0
    final_score := some 0 }

/-- A retriever configured with `context_window_size = 302`, so the
available budget after the 200 reserved tokens is 102. -/
def budget_bug_cfg : MultiStageRetriever := ⟨7/10, 3/10, 50, 10, 5, 302⟩

/-- One-word candidate whose content equals the query of the C5 scenario. -/
def c5_candidate : RetrievalResult :=
  { chunk_id := "a", content := "a".data, metadata := {},
    dense_score := 0, sparse_score := 0, hybrid_score := 0 }

/-- First of two identical low-scoring candidates for the diversity
scenario. -/
def c9_first : RetrievalResult :=
  { chunk_id := "x", content := "a b".data, metadata := {},
    dense_score := 0, sparse_score := 0, hybrid_score := 0, final_score := some (1/2) }

/-- Second candidate, identical content and score, distinct id. -/
def c9_second : RetrievalResult := { c9_first with chunk_id := "y" }

/-- A reranked-stage candidate with given id, hybrid score and content. -/
def mk_candidate (cid : String) (h : ℚ) (c : String) : RetrievalResult :=
  { chunk_id := cid, content := c.data, metadata := {},
    dense_score := 0, sparse_score := 0, hybrid_score := h }

/-- Four candidates with descending hybrid scores; the second duplicates
the first one's content, so diversity injection will skip it. -/
def c3_candidates : List RetrievalResult :=
  [mk_candidate ("r0") (8/10) ("x y"), mk_candidate ("r1") (6/10) ("x y"),
   mk_candidate ("r2") (4/10) ("p q"), mk_candidate ("r3") (2/10) ("u v")]

/-- Four candidates with pairwise-distinct contents, for witnessing the
diversity-stage properties. -/
def c9_witness_list : List RetrievalResult :=
  [mk_candidate ("w0") (8/10) ("a"), mk_candidate ("w1") (6/10) ("b"),
   mk_candidate ("w2") (4/10) ("c"), mk_candidate ("w3") (2/10) ("d")]

/-! # Lemmas about the embedded primitives -/

/-- The stable descending sort is a permutation of its input. -/
theorem pySortDesc_perm {α κ : Type} [LinearOrder κ] (key : α → κ) (l : List α) :
    List.Perm (pySortDesc key l) l := by
  unfold pySortDesc
  exact List.perm_insertionSort _ l

/-- The stable descending sort produces non-increasing keys. -/
theorem pySortDesc_sorted {α κ : Type} [LinearOrder κ] (key : α → κ) (l : List α) :
    List.Pairwise (fun a b => key b ≤ key a) (pySortDesc key l) := by
  unfold pySortDesc
  haveI : IsTotal α (fun a b => key b ≤ key a) := ⟨fun a b => le_total (key b) (key a)⟩
  haveI : IsTrans α (fun a b => key b ≤ key a) := ⟨fun _ _ _ hab hbc => le_trans hbc hab⟩
  exact List.sorted_insertionSort _ l

/-- Python `max(list)` on `x :: xs` is an element of the list and bounds
every element. -/
theorem pyListMax_spec {κ : Type} [LinearOrder κ] (x : κ) (xs : List κ) :
    (pyListMax x xs = x ∨ pyListMax x xs ∈ xs) ∧
    x ≤ pyListMax x xs ∧ ∀ y ∈ xs, y ≤ pyListMax x xs := by
  induction xs generalizing x with
  | nil => simp [pyListMax]
  | cons y ys ih =>
    have h := ih (max x y)
    unfold pyListMax at h ⊢
    simp only [List.foldl_cons]
    refine ⟨?_, ?_, ?_⟩
    · rcases h.1 with h1 | h1
      · rcases max_choice x y with hm | hm
        · left; rw [h1, hm]
        · right; rw [h1, hm]; exact List.mem_cons_self _ _
      · right; exact List.mem_cons_of_mem _ h1
    · exact le_trans (le_max_left x y) h.2.1
    · intro z hz
      rcases List.mem_cons.mp hz with rfl | hz'
      · exact le_trans (le_max_right x z) h.2.1
      · exact h.2.2 z hz'

/-- Python `min(list)` on `x :: xs` is an element of the list and is below
every element. -/
theorem pyListMin_spec {κ : Type} [LinearOrder κ] (x : κ) (xs : List κ) :
    (pyListMin x xs = x ∨ pyListMin x xs ∈ xs) ∧
    pyListMin x xs ≤ x ∧ ∀ y ∈ xs, pyListMin x xs ≤ y := by
  induction xs generalizing x with
  | nil => simp [pyListMin]
  | cons y ys ih =>
    have h := ih (min x y)
    unfold pyListMin at h ⊢
    simp only [List.foldl_cons]
    refine ⟨?_, ?_, ?_⟩
    · rcases h.1 with h1 | h1
      · rcases min_choice x y with hm | hm
        · left; rw [h1, hm]
        · right; rw [h1, hm]; exact List.mem_cons_self _ _
      · right; exact List.mem_cons_of_mem _ h1
    · exact le_trans h.2.1 (min_le_left x y)
    · intro z hz
      rcases List.mem_cons.mp hz with rfl | hz'
      · exact le_trans h.2.1 (min_le_right x z)
      · exact h.2.2 z hz'

/-- Every element of a non-empty score list lies between the list's min
and max. -/
theorem pyList_between {κ : Type} [LinearOrder κ] (s : κ) (ss : List κ) :
    ∀ x ∈ s :: ss, pyListMin s ss ≤ x ∧ x ≤ pyListMax s ss := by
  intro x hx
  rcases List.mem_cons.mp hx with rfl | hx'
  · exact ⟨(pyListMin_spec x ss).2.1, (pyListMax_spec x ss).2.1⟩
  · exact ⟨(pyListMin_spec s ss).2.2 x hx', (pyListMax_spec s ss).2.2 x hx'⟩

/-! # Claim C2 -/

/-- Claim C2, corrected. For the fusion-stage normalization: when a
non-empty score list has positive range the maximum normalizes to exactly
1 and the minimum to exactly 0; but a zero-range list (including the
single-element list) normalizes every element to 0 — not to 1.0 and not
unchanged as the claim states. For the cross-encoder batch: positive
range behaves as claimed (max to 1, min to 0), a single score becomes
1.0, and a zero-range batch of two or more becomes all-1.0 — again not
unchanged. -/
theorem C2_minmax_normalization :
    (∀ (s : ℚ) (ss : List ℚ), pyListMin s ss < pyListMax s ss →
      normalize_fusion_score (s :: ss) (pyListMax s ss) = 1 ∧
      normalize_fusion_score (s :: ss) (pyListMin s ss) = 0) ∧
    (∀ (s : ℚ) (ss : List ℚ), pyListMax s ss = pyListMin s ss →
      ∀ x ∈ s :: ss, normalize_fusion_score (s :: ss) x = 0) ∧
    (∀ (s : ℚ) (ss : List ℚ), pyListMin s ss < pyListMax s ss →
      cross_encoder_normalize (s :: ss) =
        (s :: ss).map (fun v => (v - pyListMin s ss) / (pyListMax s ss - pyListMin s ss)) ∧
      (pyListMax s ss - pyListMin s ss) / (pyListMax s ss - pyListMin s ss) = 1 ∧
      (pyListMin s ss - pyListMin s ss) / (pyListMax s ss - pyListMin s ss) = 0) ∧
    (∀ (s : ℚ) (ss : List ℚ), ss ≠ [] → pyListMax s ss = pyListMin s ss →
      cross_encoder_normalize (s :: ss) = List.replicate (s :: ss).length 1) ∧
    (∀ x : ℚ, cross_encoder_normalize [x] = [1]) := by
  have hlen : ∀ (ss : List ℚ), ss ≠ [] → 1 < (List.length ss) + 1 := by
    intro ss h
    cases ss with
    | nil => exact absurd rfl h
    | cons a t => simp [Nat.succ_lt_succ_iff]
  refine ⟨?_, ?_, ?_, ?_, ?_⟩
  · intro s ss h
    have hpos : (0 : ℚ) < pyListMax s ss - pyListMin s ss := by linarith
    constructor
    · simp only [normalize_fusion_score, gt_iff_lt, if_pos h, if_pos hpos]
      exact div_self (ne_of_gt hpos)
    · simp only [normalize_fusion_score, gt_iff_lt, if_pos h, if_pos hpos, sub_self, zero_div]
  · intro s ss h x hx
    have hb := pyList_between s ss x hx
    have hx0 : x = pyListMin s ss := le_antisymm (h ▸ hb.2) hb.1
    have hnotlt : ¬ pyListMin s ss < pyListMax s ss := by rw [h]; exact lt_irrefl _
    simp only [normalize_fusion_score, gt_iff_lt, if_neg hnotlt, if_pos (by norm_num : (0:ℚ) < 1),
      hx0, sub_self, zero_div]
  · intro s ss h
    have hne : ss ≠ [] := by
      intro hss
      subst hss
      simp [pyListMax, pyListMin] at h
    have hpos : (0 : ℚ) < pyListMax s ss - pyListMin s ss := by linarith
    refine ⟨?_, div_self (ne_of_gt hpos), by simp⟩
    simp only [cross_encoder_normalize, List.length_cons, if_pos (hlen ss hne), if_pos h]
  · intro s ss hne h
    have hnotlt : ¬ pyListMin s ss < pyListMax s ss := by rw [h]; exact lt_irrefl _
    simp only [cross_encoder_normalize, List.length_cons, if_pos (hlen ss hne), if_neg hnotlt]
  · intro x
    simp [cross_encoder_normalize]

/-- Witness for C2 at the score list `[0.1, 0.9]` and the one-element
cross-encoder batch `[2]`. -/
theorem C2_minmax_normalization_witness :
    normalize_fusion_score [1/10, 9/10] (9/10) = 1 ∧
    normalize_fusion_score [1/10, 9/10] (1/10) = 0 ∧
    cross_encoder_normalize [(2 : ℚ)] = [1] := by
  have hmx : pyListMax (1/10 : ℚ) [9/10] = 9/10 := by norm_num [pyListMax]
  have hmn : pyListMin (1/10 : ℚ) [9/10] = 1/10 := by norm_num [pyListMin]
  have h1 := (C2_minmax_normalization.1 (1/10) [9/10] (by rw [hmx, hmn]; norm_num))
  refine ⟨?_, ?_, C2_minmax_normalization.2.2.2.2 2⟩
  · have := h1.1; rwa [hmx] at this
  · have := h1.2; rwa [hmn] at this

/-- Counterexample to C2 as stated: the fusion-stage normalization of the
single-element list `[0.9]` yields `0`, not the claimed `1.0` (and hence
also not "unchanged"). -/
theorem C2_counterexample :
    normalize_fusion_score [(9 : ℚ)/10] (9/10) = 0 ∧ (0 : ℚ) ≠ 1 := by
  constructor
  · norm_num [normalize_fusion_score, pyListMax, pyListMin]
  · norm_num

/-! # Claim C4 -/

/-- Claim C4, corrected: `MultiStageRetriever.__init__` performs no
validation of the fusion weights whatsoever — construction succeeds for
every pair of weights and simply stores them together with the other
defaults; no `InvalidWeights` error exists in the code. -/
theorem C4_no_weight_validation :
    ∀ dense_weight sparse_weight : ℚ,
      multi_stage_retriever_init dense_weight sparse_weight =
        { dense_weight := dense_weight
          sparse_weight := sparse_weight
          max_initial_results := 50
          max_reranked_results := 10
          max_final_results := 5
          context_window_size := 10000 } :=
  fun _ _ => rfl

/-- Counterexample to C4 as stated: weights 0.9/0.9 are off by 0.8 from
summing to 1, far beyond the 1e-6 tolerance, yet construction succeeds
and stores them. -/
theorem C4_counterexample :
    (multi_stage_retriever_init (9/10) (9/10)).dense_weight = 9/10 ∧
    (multi_stage_retriever_init (9/10) (9/10)).sparse_weight = 9/10 ∧
    ¬(|(9 : ℚ)/10 + 9/10 - 1| ≤ 1/1000000) := by
  refine ⟨rfl, rfl, ?_⟩
  have h : (9 : ℚ)/10 + 9/10 - 1 = 4/5 := by norm_num
  rw [h, abs_of_pos (by norm_num : (0 : ℚ) < 4/5)]
  norm_num

/-! # Claim C10 -/

/-- Claim C10, confirmed: `search_dense` checks `total_vectors == 0`
before validating the query dimension, so any query — of any length —
against an empty index returns the empty list rather than raising. -/
theorem C10_empty_index_search (dim : Nat) (q : List ℝ) (k : Nat) :
    search_dense ⟨dim, []⟩ q k = .ok [] := rfl

/-! # Claim C1 -/

/-- Claim C1, corrected. In the fusion of dense `{A:0.9, B:0.1}` with
sparse `{B:0.8, C:0.2}` under weights 0.7/0.3 (empty contents and
metadata, so every boost factor is 1): only chunks appearing in the
sparse list have their hybrid score recomputed from the normalized
signals. `A`, dense-only, keeps the hybrid score set during dense
retrieval — raw `0.9 * 0.7 = 0.63`, not `0.7 * 1.0 = 0.70`; `B` gets
`0.7*0.0 + 0.3*1.0 = 0.30`, then the position-decay factor `1 - 0.005`
of rank two makes it `0.2985`; `C` gets `0.3 * 0.0 = 0`. -/
theorem C1_fusion_scenario :
    (combine_retrieval_results cfg_default
      [mk_dense_result cfg_default ("A") (9/10), mk_dense_result cfg_default ("B") (1/10)]
      [mk_sparse_result cfg_default ("B") (8/10), mk_sparse_result cfg_default ("C") (2/10)]).map
      (fun r => (r.chunk_id, r.hybrid_score)) =
    [("A", 63/100), ("B", 597/2000), ("C", 0)] := by
  simp [combine_retrieval_results, mk_dense_result, mk_sparse_result, cfg_default,
    multi_stage_retriever_init, normalize_fusion_score, pyListMax, pyListMin,
    dictInsert, calculate_context_boost, apply_position_aware_ranking, pySortDesc,
    List.insertionSort, List.orderedInsert, List.enumFrom, min_def]
  norm_num

/-- Counterexample to C1 as stated: in that fusion, chunk `A`'s hybrid
score is `0.63`, not the claimed `0.7 * 1.0 + 0.3 * 0 = 0.70` — the code
never recomputes the hybrid score of a chunk that appears only in the
dense list. -/
theorem C1_counterexample :
    ((combine_retrieval_results cfg_default
      [mk_dense_result cfg_default ("A") (9/10), mk_dense_result cfg_default ("B") (1/10)]
      [mk_sparse_result cfg_default ("B") (8/10), mk_sparse_result cfg_default ("C") (2/10)]).find?
      (fun r => r.chunk_id == "A")).map (fun r => r.hybrid_score) = some (63/100) ∧
    (63 : ℚ)/100 ≠ 7/10 := by
  constructor
  · simp [combine_retrieval_results, mk_dense_result, mk_sparse_result, cfg_default,
      multi_stage_retriever_init, normalize_fusion_score, pyListMax, pyListMin,
      dictInsert, calculate_context_boost, apply_position_aware_ranking, pySortDesc,
      List.insertionSort, List.orderedInsert, List.enumFrom, min_def]
    norm_num
  · norm_num

/-! # Claim C6 -/

/-- Claim C6 is right about the code's intent but the code violates it:
with `context_window_size = 302` (so 102 tokens available after the 200
reserved) and a single candidate whose content is `". "` repeated 200
times, the budget loop enters the truncation branch, `_smart_truncate`
accepts all 201 empty zero-word sentences and re-joins them with `'. '`,
reconstructing the entire 200-word content, and the "truncated" block is
estimated at 156 tokens — the assembled blocks cost 156 > 102. -/
theorem C6_budget_violation :
    (context_fusion_blocks budget_bug_cfg [budget_bug_result]).2 = 156 ∧
    ((context_fusion_blocks budget_bug_cfg [budget_bug_result]).1.map estimate_tokens).sum = 156 ∧
    ¬((context_fusion_blocks budget_bug_cfg [budget_bug_result]).2 ≤
      budget_bug_cfg.context_window_size - 200) := by
  refine ⟨by decide, by decide, by decide⟩

/-! # Claim C7 -/

/-- Normalization never changes a vector's length: nothing is truncated
or padded. -/
theorem normalize_vector_length (v : List ℝ) :
    (normalize_vector v).length = v.length := by
  unfold normalize_vector
  by_cases h : Real.sqrt (sumSq v) = 0 <;> simp [h]

/-- Claim C7, corrected: `add_embeddings` fails with the dimension
mismatch error whenever any input embedding's length differs from the
index dimension, and on success appends exactly the normalized input
vectors, all of the index dimension and with lengths preserved (nothing
silently truncated or padded). `search_dense` fails with the dimension
mismatch error on a mismatched query whenever the index is non-empty;
on an empty index the empty-result short-circuit fires first, so the
claim's "for every query embedding" clause does not hold there (claim
C10). -/
theorem C7_dimension_checks :
    (∀ (db : FaissVectorDatabase) (inputs : List (String × List ℝ)),
      (∃ p ∈ inputs, p.2.length ≠ db.embedding_dimension) →
      ∃ got, add_embeddings db inputs =
          .error (.dimensionMismatch db.embedding_dimension got) ∧
        got ≠ db.embedding_dimension) ∧
    (∀ (db : FaissVectorDatabase) (inputs : List (String × List ℝ))
        (db' : FaissVectorDatabase),
      add_embeddings db inputs = .ok (true, db') →
      db'.stored = db.stored ++ inputs.map (fun p => (p.1, normalize_vector p.2)) ∧
      ∀ p ∈ inputs, p.2.length = db.embedding_dimension ∧
        (normalize_vector p.2).length = p.2.length) ∧
    (∀ (db : FaissVectorDatabase) (q : List ℝ) (k : Nat),
      db.stored ≠ [] → q.length ≠ db.embedding_dimension →
      search_dense db q k = .error (.dimensionMismatch db.embedding_dimension q.length)) := by
  refine ⟨?_, ?_, ?_⟩
  · rintro db inputs ⟨p0, hp0, hne⟩
    have hempty : inputs.isEmpty = false := by
      cases inputs with
      | nil => exact absurd hp0 (List.not_mem_nil p0)
      | cons a t => rfl
    cases hfind : inputs.find? (fun p => p.2.length != db.embedding_dimension) with
    | none =>
      exfalso
      have := List.find?_eq_none.mp hfind p0 hp0
      simp only [bne_iff_ne, ne_eq, decide_not] at this
      exact absurd hne (by simpa using this)
    | some pf =>
      refine ⟨pf.2.length, ?_, ?_⟩
      · unfold add_embeddings
        rw [hempty, hfind]
        rfl
      · have := List.find?_some hfind
        simpa [bne_iff_ne] using this
  · intro db inputs db' hok
    unfold add_embeddings at hok
    cases hempty : inputs.isEmpty with
    | true =>
      rw [hempty] at hok
      simp at hok
    | false =>
      rw [hempty] at hok
      cases hfind : inputs.find? (fun p => p.2.length != db.embedding_dimension) with
      | some pf => rw [hfind] at hok; simp at hok
      | none =>
        rw [hfind] at hok
        simp only [Bool.false_eq_true, if_false, Except.ok.injEq, Prod.mk.injEq,
          true_and] at hok
        have hlen : ∀ p ∈ inputs, p.2.length = db.embedding_dimension := by
          intro p hp
          have := List.find?_eq_none.mp hfind p hp
          simpa [bne_iff_ne] using this
        subst hok
        exact ⟨rfl, fun p hp => ⟨hlen p hp, normalize_vector_length p.2⟩⟩
  · intro db q k hne hq
    have hempty : db.stored.isEmpty = false := by
      cases h : db.stored with
      | nil => exact absurd h hne
      | cons a t => rfl
    have hbne : (q.length != db.embedding_dimension) = true := by
      simpa [bne_iff_ne] using hq
    unfold search_dense
    rw [hempty, hbne]
    rfl

/-- Witness for C7: a 1-dimensional embedding rejected by a 2-dimensional
index, and a 1-dimensional query rejected by a populated 2-dimensional
index. -/
theorem C7_dimension_checks_witness :
    (∃ got, add_embeddings ⟨2, []⟩ [(("a"), [(1 : ℝ)])] =
        .error (.dimensionMismatch 2 got) ∧ got ≠ 2) ∧
    search_dense ⟨2, [(("b"), [(1 : ℝ), 0])]⟩ [(5 : ℝ)] 3 =
      .error (.dimensionMismatch 2 1) := by
  constructor
  · exact C7_dimension_checks.1 ⟨2, []⟩ [(("a"), [(1 : ℝ)])]
      ⟨(("a"), [(1 : ℝ)]), by simp, by simp⟩
  · exact C7_dimension_checks.2.2 ⟨2, [(("b"), [(1 : ℝ), 0])]⟩ [(5 : ℝ)] 3
      (by simp) (by simp)

/-- Counterexample to C7 as stated: a query of length 1 against an empty
768-dimensional index returns the empty result list instead of a
dimension mismatch failure. -/
theorem C7_counterexample :
    search_dense ⟨768, []⟩ [(1 : ℝ)] 5 = .ok [] ∧ [(1 : ℝ)].length ≠ 768 :=
  ⟨rfl, by simp⟩

/-! # Lemmas about the rerank stage -/

/-- Rank assignment preserves any projection that ignores
`rank_position`. -/
theorem assign_rank_positions_map {β : Type} (f : RetrievalResult → β)
    (hf : ∀ r k, f { r with rank_position := k } = f r) (l : List RetrievalResult) :
    (assign_rank_positions l).map f = l.map f := by
  suffices h : ∀ (l : List RetrievalResult) (n : Nat),
      ((List.enumFrom n l).map (fun p => { p.2 with rank_position := p.1 + 1 })).map f =
        l.map f by exact h l 0
  intro l
  induction l with
  | nil => intro n; rfl
  | cons a t ih =>
    intro n
    have hstep : List.enumFrom n (a :: t) = (n, a) :: List.enumFrom (n + 1) t := rfl
    rw [hstep, List.map_cons, List.map_cons, List.map_cons, hf, ih (n + 1)]

/-- The rank positions assigned by `assign_rank_positions` are exactly
`1..length` in order. -/
theorem assign_rank_positions_ranks (l : List RetrievalResult) :
    (assign_rank_positions l).map (fun r => r.rank_position) = List.range' 1 l.length := by
  suffices h : ∀ (l : List RetrievalResult) (n : Nat),
      ((List.enumFrom n l).map (fun p => { p.2 with rank_position := p.1 + 1 })).map
        (fun r => r.rank_position) = List.range' (n + 1) l.length by
    exact h l 0
  intro l
  induction l with
  | nil => intro n; rfl
  | cons a t ih =>
    intro n
    have hstep : List.enumFrom n (a :: t) = (n, a) :: List.enumFrom (n + 1) t := rfl
    rw [hstep, List.map_cons, List.map_cons, ih (n + 1)]
    rfl

/-- `assign_rank_positions` preserves length. -/
theorem assign_rank_positions_length (l : List RetrievalResult) :
    (assign_rank_positions l).length = l.length := by
  have h := congrArg List.length (assign_rank_positions_ranks l)
  simpa [assign_rank_positions] using h

/-- Projecting a field that `attach_rerank_score` leaves unchanged
through the score-attachment `zipWith` gives a prefix of the same
projection of the candidates. -/
theorem zipWith_attach_map_proj {β : Type} (f : RetrievalResult → β)
    (hf : ∀ r s, f (attach_rerank_score r s) = f r) :
    ∀ (c : List RetrievalResult) (sc : List ℚ),
      (List.zipWith attach_rerank_score c sc).map f = (c.map f).take sc.length := by
  intro c
  induction c with
  | nil => intro sc; simp
  | cons a t ih =>
    intro sc
    cases sc with
    | nil => simp
    | cons s st => simp [List.zipWith_cons_cons, hf, ih st]

/-- Attaching the neutral replicate-0.5 scores gives every result a
rerank score of exactly `some 0.5`. -/
theorem zipWith_attach_replicate_rerank (a : ℚ) :
    ∀ (c : List RetrievalResult),
      (List.zipWith attach_rerank_score c (List.replicate c.length a)).map
        (fun r => r.rerank_score) = List.replicate c.length (some a) := by
  intro c
  induction c with
  | nil => rfl
  | cons b t ih =>
    rw [List.length_cons, List.replicate_succ, List.zipWith_cons_cons, List.map_cons, ih]
    rfl

/-! # Claim C5 -/

/-- Claim C5, corrected. When the cross-encoder model is loaded but its
`predict` call raises (modelled by the `none` outcome), `_rerank_results`
still returns a fully-ranked list — every candidate scored, sorted
descending by final score, rank positions exactly `1..n` — and no
exception escapes. But the substituted rerank scores are the neutral
constant `0.5` for every candidate (the handler inside
`_cross_encoder_score`), NOT the deterministic 0.4/0.4/0.2 fallback
scorer, which runs only when the cross-encoder failed to load
(`self.cross_encoder is None`). -/
theorem C5_exception_neutral_scores (cfg : MultiStageRetriever) (q : List Char)
    (results : List RetrievalResult) :
    (∀ r ∈ rerank_results cfg q results true none, r.rerank_score = some (1/2)) ∧
    (rerank_results cfg q results true none).map (fun r => r.rank_position) =
      List.range' 1 (rerank_results cfg q results true none).length ∧
    List.Pairwise (fun a b => b ≤ a)
      ((rerank_results cfg q results true none).map (fun r => r.final_score.getD 0)) := by
  have hrw : rerank_results cfg q results true none =
      assign_rank_positions (pySortDesc (fun r => r.final_score.getD 0)
        (List.zipWith attach_rerank_score (results.take cfg.max_reranked_results)
          (List.replicate (results.take cfg.max_reranked_results).length (1/2)))) := rfl
  set W := List.zipWith attach_rerank_score (results.take cfg.max_reranked_results)
      (List.replicate (results.take cfg.max_reranked_results).length (1/2)) with hWdef
  refine ⟨?_, ?_, ?_⟩
  · intro r hr
    have hmap : (rerank_results cfg q results true none).map (fun r => r.rerank_score) =
        (pySortDesc (fun r => r.final_score.getD 0) W).map (fun r => r.rerank_score) := by
      rw [hrw]
      exact assign_rank_positions_map (fun r => r.rerank_score) (fun _ _ => rfl) _
    have hperm : ((pySortDesc (fun r => r.final_score.getD 0) W).map
        (fun r => r.rerank_score)).Perm (W.map (fun r => r.rerank_score)) :=
      (pySortDesc_perm _ W).map _
    have hrepl := zipWith_attach_replicate_rerank (1/2) (results.take cfg.max_reranked_results)
    have hx : r.rerank_score ∈ (rerank_results cfg q results true none).map
        (fun r => r.rerank_score) := List.mem_map_of_mem _ hr
    rw [hmap] at hx
    have hx2 := hperm.mem_iff.mp hx
    rw [← hWdef] at hrepl
    rw [hrepl] at hx2
    exact List.eq_of_mem_replicate hx2
  · rw [hrw, assign_rank_positions_ranks, assign_rank_positions_length]
  · have hmap : (rerank_results cfg q results true none).map (fun r => r.final_score.getD 0) =
        (pySortDesc (fun r => r.final_score.getD 0) W).map (fun r => r.final_score.getD 0) := by
      rw [hrw]
      exact assign_rank_positions_map (fun r => r.final_score.getD 0) (fun _ _ => rfl) _
    rw [hmap]
    exact List.pairwise_map.mpr (pySortDesc_sorted _ W)

/-- Witness for C5 at the single candidate whose content equals the
query: the run returns dense ranks, and the result it actually produces
carries rerank score `some 0.5`. -/
theorem C5_exception_neutral_scores_witness :
    (rerank_results cfg_default ("a".data) [c5_candidate] true none).map
      (fun r => r.rank_position) =
      List.range' 1 (rerank_results cfg_default ("a".data) [c5_candidate] true none).length ∧
    ({ c5_candidate with
        rerank_score := some (1/2)
        final_score := some (1/5)
        rank_position := 1 } : RetrievalResult).rerank_score = some (1/2) := by
  refine ⟨(C5_exception_neutral_scores cfg_default ("a".data) [c5_candidate]).2.1, ?_⟩
  refine (C5_exception_neutral_scores cfg_default ("a".data) [c5_candidate]).1 _ ?_
  simp [rerank_results, cfg_default, multi_stage_retriever_init, cross_encoder_score,
    c5_candidate, attach_rerank_score, assign_rank_positions, pySortDesc,
    List.insertionSort, List.orderedInsert, List.enumFrom]
  norm_num

/-- Counterexample to C5 as stated: for query `"a"` and the single
candidate with content `"a"`, the deterministic fallback scorer yields
`1.0` (full overlap, full substring presence, ideal length), while the
exception path substitutes `0.5` — the rerank scores used are not those
of the fallback scorer. -/
theorem C5_counterexample :
    (rerank_results cfg_default ("a".data) [c5_candidate] true none).map
      (fun r => r.rerank_score) = [some (1/2)] ∧
    advanced_similarity_score ("a".data) [c5_candidate] = [1] ∧ ((1 : ℚ)/2) ≠ 1 := by
  refine ⟨?_, ?_, by norm_num⟩
  · simp [rerank_results, cfg_default, multi_stage_retriever_init, cross_encoder_score,
      c5_candidate, attach_rerank_score, assign_rank_positions, pySortDesc,
      List.insertionSort, List.orderedInsert, List.enumFrom]
  · simp [advanced_similarity_score, c5_candidate, pySplitWs, pyWordsGo, lowerChars,
      containsSeq, listStartsWith, List.dedup, min_def]
    norm_num

/-! # Lemmas about diversity injection -/

/-- Counting with a weaker filter never counts more. -/
theorem filter_length_mono {α : Type} (p q : α → Bool)
    (h : ∀ x, p x = true → q x = true) (l : List α) :
    (l.filter p).length ≤ (l.filter q).length := by
  induction l with
  | nil => simp
  | cons a t ih =>
    simp only [List.filter_cons]
    by_cases hp : p a = true
    · rw [if_pos hp, if_pos (h a hp)]
      simpa using ih
    · rw [if_neg hp]
      by_cases hq : q a = true
      · rw [if_pos hq]
        exact le_trans ih (Nat.le_succ _)
      · rw [if_neg hq]
        exact ih

/-- The overlap fraction is monotone in the used-keyword set. -/
theorem overlapFrac_mono (used used' sample : List (List Char))
    (h : ∀ w, w ∈ used → w ∈ used') :
    overlapFrac used sample ≤ overlapFrac used' sample := by
  unfold overlapFrac
  by_cases hs : sample.isEmpty
  · rw [if_pos hs, if_pos hs]
  · rw [if_neg hs, if_neg hs]
    have hlen : (0 : ℚ) < sample.length := by
      cases sample with
      | nil => simp at hs
      | cons a t =>
        have : 0 < (a :: t).length := Nat.succ_pos t.length
        exact_mod_cast this
    refine (div_le_div_right hlen).mpr ?_
    have := filter_length_mono (fun w => decide (w ∈ used)) (fun w => decide (w ∈ used'))
      (fun w hw => by
        simp only [decide_eq_true_eq] at hw ⊢
        exact h w hw) sample
    exact_mod_cast this

/-- Every result the diversity loop admits satisfied the admission test
against the used-keyword set the loop started from (the set only grows,
and the overlap fraction is monotone in it). -/
theorem diversity_loop_sound (rs : List RetrievalResult) :
    ∀ (used : List (List Char)) (count : Nat) (r : RetrievalResult),
      r ∈ diversity_loop used count rs →
      overlapFrac used (content_keyword_sample r.content) < 7/10 ∨
        9/10 < r.final_score.getD 0 := by
  induction rs with
  | nil =>
    intro used count r h
    simp [diversity_loop] at h
  | cons a t ih =>
    intro used count r h
    simp only [diversity_loop] at h
    by_cases hc : overlapFrac used (content_keyword_sample a.content) < 7/10 ∨
        9/10 < a.final_score.getD 0
    · rw [if_pos hc] at h
      by_cases hcap : 10 ≤ count + 1
      · rw [if_pos hcap] at h
        rw [List.mem_singleton.mp h]
        exact hc
      · rw [if_neg hcap] at h
        rcases List.mem_cons.mp h with rfl | hr
        · exact hc
        · rcases ih (used ++ content_keyword_sample a.content) (count + 1) r hr with hlt | hs
          · exact Or.inl (lt_of_le_of_lt
              (overlapFrac_mono _ _ _ (fun w hw => List.mem_append_left _ hw)) hlt)
          · exact Or.inr hs
    · rw [if_neg hc] at h
      exact ih used count r h

/-- The diversity loop returns a sublist of its input. -/
theorem diversity_loop_sublist (rs : List RetrievalResult) :
    ∀ used count, List.Sublist (diversity_loop used count rs) rs := by
  induction rs with
  | nil =>
    intro used count
    simp [diversity_loop]
  | cons a t ih =>
    intro used count
    simp only [diversity_loop]
    by_cases hc : overlapFrac used (content_keyword_sample a.content) < 7/10 ∨
        9/10 < a.final_score.getD 0
    · rw [if_pos hc]
      by_cases hcap : 10 ≤ count + 1
      · rw [if_pos hcap]
        exact (List.nil_sublist t).cons₂ a
      · rw [if_neg hcap]
        exact (ih _ _).cons₂ a
    · rw [if_neg hc]
      exact (ih _ _).cons a

/-- Starting from `count` (between 1 and 9, as the source maintains), the
diversity loop admits at most `10 - count` further results. -/
theorem diversity_loop_length (rs : List RetrievalResult) :
    ∀ used count, 1 ≤ count → count ≤ 9 →
      (diversity_loop used count rs).length ≤ 10 - count := by
  induction rs with
  | nil =>
    intro used count _ _
    simp [diversity_loop]
  | cons a t ih =>
    intro used count h1 h9
    simp only [diversity_loop]
    by_cases hc : overlapFrac used (content_keyword_sample a.content) < 7/10 ∨
        9/10 < a.final_score.getD 0
    · rw [if_pos hc]
      by_cases hcap : 10 ≤ count + 1
      · rw [if_pos hcap]
        simp only [List.length_singleton]
        omega
      · rw [if_neg hcap]
        have := ih (used ++ content_keyword_sample a.content) (count + 1) (by omega) (by omega)
        simp only [List.length_cons]
        omega
    · rw [if_neg hc]
      exact ih used count h1 h9

/-- `_apply_diversity_injection` returns a subsequence of its input. -/
theorem apply_diversity_injection_sublist (l : List RetrievalResult) (q : List Char) :
    List.Sublist (apply_diversity_injection l q) l := by
  unfold apply_diversity_injection
  by_cases h3 : l.length ≤ 3
  · rw [if_pos h3]
  · rw [if_neg h3]
    cases l with
    | nil => exact List.Sublist.refl _
    | cons r0 rest => exact (diversity_loop_sublist _ _ _).cons₂ _

/-! # Claim C9 -/

/-- Claim C9, corrected. `_apply_diversity_injection` returns lists of at
most 3 candidates UNCHANGED — no admission test at all, so "admits
exactly when the overlap is below 0.7 or the score above 0.9" fails
there. On longer lists: the top candidate is always kept, the output is
a subsequence of the input of length at most 10, and every admitted
non-top candidate did satisfy the overlap/score test when admitted — in
particular against the top candidate's keyword sample. The cap also
truncates: once 10 results are selected the loop stops regardless of the
test. -/
theorem C9_diversity_properties :
    (∀ (l : List RetrievalResult) (q : List Char),
      (apply_diversity_injection l q).length ≤ 10) ∧
    (∀ (l : List RetrievalResult) (q : List Char), l ≠ [] →
      (apply_diversity_injection l q).head? = l.head?) ∧
    (∀ (l : List RetrievalResult) (q : List Char),
      List.Sublist (apply_diversity_injection l q) l) ∧
    (∀ (l : List RetrievalResult) (q : List Char), l.length ≤ 3 →
      apply_diversity_injection l q = l) ∧
    (∀ (r0 : RetrievalResult) (rest : List RetrievalResult) (q : List Char),
      3 < (r0 :: rest).length →
      ∀ r ∈ (apply_diversity_injection (r0 :: rest) q).tail,
        overlapFrac (content_keyword_sample r0.content) (content_keyword_sample r.content)
          < 7/10 ∨ 9/10 < r.final_score.getD 0) := by
  refine ⟨?_, ?_, ?_, ?_, ?_⟩
  · intro l q
    unfold apply_diversity_injection
    by_cases h3 : l.length ≤ 3
    · rw [if_pos h3]
      omega
    · rw [if_neg h3]
      cases l with
      | nil => simp
      | cons r0 rest =>
        have := diversity_loop_length rest (content_keyword_sample r0.content) 1
          (le_refl 1) (by omega)
        simp only [List.length_cons]
        omega
  · intro l q hne
    unfold apply_diversity_injection
    by_cases h3 : l.length ≤ 3
    · rw [if_pos h3]
    · rw [if_neg h3]
      cases l with
      | nil => exact absurd rfl hne
      | cons r0 rest => rfl
  · intro l q
    exact apply_diversity_injection_sublist l q
  · intro l q h3
    unfold apply_diversity_injection
    rw [if_pos h3]
  · intro r0 rest q h3 r hr
    unfold apply_diversity_injection at hr
    rw [if_neg (by omega : ¬ (r0 :: rest).length ≤ 3)] at hr
    simp only [List.tail_cons] at hr
    exact diversity_loop_sound rest _ 1 r hr

/-- Witness for C9 on a concrete four-candidate list with distinct
contents. -/
theorem C9_diversity_properties_witness :
    (apply_diversity_injection c9_witness_list []).length ≤ 10 ∧
    (apply_diversity_injection c9_witness_list []).head? = c9_witness_list.head? ∧
    List.Sublist (apply_diversity_injection c9_witness_list []) c9_witness_list := by
  refine ⟨C9_diversity_properties.1 c9_witness_list [], ?_,
    C9_diversity_properties.2.2.1 c9_witness_list []⟩
  exact C9_diversity_properties.2.1 c9_witness_list []
    (by simp [c9_witness_list, mk_candidate])

/-- Counterexample to C9 as stated: two identical low-scoring candidates
are BOTH kept (the list has at most 3 entries, so no filtering runs),
although the second one's overlap ratio is 1 ≥ 0.7 and its final score
0.5 ≤ 0.9 — admission is not "exactly when" the test passes. -/
theorem C9_counterexample :
    apply_diversity_injection [c9_first, c9_second] [] = [c9_first, c9_second] ∧
    ¬(overlapFrac (content_keyword_sample c9_first.content)
        (content_keyword_sample c9_second.content) < 7/10 ∨
      9/10 < c9_second.final_score.getD 0) := by
  constructor
  · simp [apply_diversity_injection]
  · simp [overlapFrac, content_keyword_sample, c9_first, c9_second, pySplitWs, pyWordsGo,
      lowerChars, List.dedup]
    norm_num

/-! # Lemmas about the whole rerank output -/

/-- The reranked output's chunk ids stay pairwise distinct when the
candidates' ids are. -/
theorem reranked_ids_nodup (cands : List RetrievalResult) (sc : List ℚ)
    (h : (cands.map (fun r => r.chunk_id)).Nodup) :
    ((assign_rank_positions (pySortDesc (fun r => r.final_score.getD 0)
      (List.zipWith attach_rerank_score cands sc))).map (fun r => r.chunk_id)).Nodup := by
  rw [assign_rank_positions_map (fun r => r.chunk_id) (fun _ _ => rfl) _]
  refine (((pySortDesc_perm _ _).map _).nodup_iff).mpr ?_
  rw [zipWith_attach_map_proj (fun r => r.chunk_id) (fun _ _ => rfl)]
  exact List.Nodup.sublist (List.take_sublist _ _) h

/-- The reranked output's final scores are non-increasing. -/
theorem reranked_finals_sorted (cands : List RetrievalResult) (sc : List ℚ) :
    List.Pairwise (fun a b => b ≤ a)
      ((assign_rank_positions (pySortDesc (fun r => r.final_score.getD 0)
        (List.zipWith attach_rerank_score cands sc))).map (fun r => r.final_score.getD 0)) := by
  rw [assign_rank_positions_map (fun r => r.final_score.getD 0) (fun _ _ => rfl) _]
  exact List.pairwise_map.mpr (pySortDesc_sorted _ _)

/-- The reranked output's rank positions are the dense sequence
`1..length`. -/
theorem reranked_ranks_dense (cands : List RetrievalResult) (sc : List ℚ) :
    (assign_rank_positions (pySortDesc (fun r => r.final_score.getD 0)
      (List.zipWith attach_rerank_score cands sc))).map (fun r => r.rank_position) =
    List.range' 1 (assign_rank_positions (pySortDesc (fun r => r.final_score.getD 0)
      (List.zipWith attach_rerank_score cands sc))).length := by
  rw [assign_rank_positions_ranks, assign_rank_positions_length]

/-! # Claim C3 -/

/-- Claim C3, corrected. The results `retrieve` returns are a budget
prefix of the diversity-filtered prefix of the reranked list. Chunk ids
stay pairwise distinct (given distinct input ids) and `final_score`
stays non-increasing across the response, but `rank_position` over the
returned results is only a strictly increasing subsequence of `1..N`
(N the reranked count): diversity injection can drop a candidate whose
rank was already assigned, leaving gaps rather than the dense sequence
`1..len(results)`. -/
theorem C3_response_invariants (cfg : MultiStageRetriever) (q : List Char)
    (results : List RetrievalResult) (enc : Bool) (pred : Option (List ℚ)) (n : Nat)
    (hnodup : (results.map (fun r => r.chunk_id)).Nodup) :
    ((((apply_diversity_injection ((rerank_results cfg q results enc pred).take 15) q).take
        n).map (fun r => r.chunk_id)).Nodup) ∧
    List.Pairwise (fun a b => b ≤ a)
      (((apply_diversity_injection ((rerank_results cfg q results enc pred).take 15) q).take
        n).map (fun r => r.final_score.getD 0)) ∧
    List.Sublist
      (((apply_diversity_injection ((rerank_results cfg q results enc pred).take 15) q).take
        n).map (fun r => r.rank_position))
      (List.range' 1 (rerank_results cfg q results enc pred).length) := by
  have hsub : List.Sublist
      ((apply_diversity_injection ((rerank_results cfg q results enc pred).take 15) q).take n)
      (rerank_results cfg q results enc pred) :=
    ((List.take_sublist n _).trans (apply_diversity_injection_sublist _ q)).trans
      (List.take_sublist 15 _)
  have hc : ((results.take cfg.max_reranked_results).map (fun r => r.chunk_id)).Nodup := by
    rw [List.map_take]
    exact List.Nodup.sublist (List.take_sublist _ _) hnodup
  refine ⟨?_, ?_, ?_⟩
  · have hR : ((rerank_results cfg q results enc pred).map (fun r => r.chunk_id)).Nodup :=
      reranked_ids_nodup (results.take cfg.max_reranked_results)
        (if enc then cross_encoder_score pred (results.take cfg.max_reranked_results)
         else advanced_similarity_score q (results.take cfg.max_reranked_results)) hc
    exact List.Nodup.sublist (hsub.map _) hR
  · have hP : List.Pairwise (fun a b => b ≤ a)
        ((rerank_results cfg q results enc pred).map (fun r => r.final_score.getD 0)) :=
      reranked_finals_sorted (results.take cfg.max_reranked_results)
        (if enc then cross_encoder_score pred (results.take cfg.max_reranked_results)
         else advanced_similarity_score q (results.take cfg.max_reranked_results))
    exact List.Pairwise.sublist (hsub.map _) hP
  · have hranks : (rerank_results cfg q results enc pred).map (fun r => r.rank_position) =
        List.range' 1 (rerank_results cfg q results enc pred).length :=
      reranked_ranks_dense (results.take cfg.max_reranked_results)
        (if enc then cross_encoder_score pred (results.take cfg.max_reranked_results)
         else advanced_similarity_score q (results.take cfg.max_reranked_results))
    rw [← hranks]
    exact hsub.map _

/-- Witness for C3 at the four-candidate run with an exception-throwing
cross-encoder and a budget prefix of three. -/
theorem C3_response_invariants_witness :
    (c3_candidates.map (fun r => r.chunk_id)).Nodup ∧
    (((apply_diversity_injection
        ((rerank_results cfg_default ("q".data) c3_candidates true none).take 15)
        ("q".data)).take 3).map (fun r => r.chunk_id)).Nodup := by
  have h : (c3_candidates.map (fun r => r.chunk_id)).Nodup := by
    simp [c3_candidates, mk_candidate]
  exact ⟨h, (C3_response_invariants cfg_default ("q".data) c3_candidates true none 3 h).1⟩

/-- Counterexample to C3 as stated: in the four-candidate run the second
candidate (rank 2) duplicates the top candidate's content and is skipped
by diversity injection, so the returned results carry rank positions
`[1, 3, 4]` — not the dense sequence `1..3`. -/
theorem C3_counterexample :
    ((apply_diversity_injection
        ((rerank_results cfg_default ("q".data) c3_candidates true none).take 15)
        ("q".data)).take 3).map (fun r => r.rank_position) = [1, 3, 4] ∧
    [1, 3, 4] ≠ List.range' 1 3 := by
  have hs1 : content_keyword_sample ("x y".data) = [['x'], ['y']] := by decide
  have hs2 : content_keyword_sample ("p q".data) = [['p'], ['q']] := by decide
  have hs3 : content_keyword_sample ("u v".data) = [['u'], ['v']] := by decide
  have h1 : rerank_results cfg_default ("q".data) c3_candidates true none =
      [{ mk_candidate ("r0") (8/10) ("x y") with
          rerank_score := some (1/2)
          final_score := some (17/25)
          rank_position := 1 },
       { mk_candidate ("r1") (6/10) ("x y") with
          rerank_score := some (1/2)
          final_score := some (14/25)
          rank_position := 2 },
       { mk_candidate ("r2") (4/10) ("p q") with
          rerank_score := some (1/2)
          final_score := some (11/25)
          rank_position := 3 },
       { mk_candidate ("r3") (2/10) ("u v") with
          rerank_score := some (1/2)
          final_score := some (8/25)
          rank_position := 4 }] := by
    simp [rerank_results, cfg_default, multi_stage_retriever_init, cross_encoder_score,
      c3_candidates, mk_candidate, attach_rerank_score, assign_rank_positions, pySortDesc,
      List.insertionSort, List.orderedInsert, List.enumFrom]
    norm_num
  rw [h1]
  constructor
  · simp [apply_diversity_injection, diversity_loop, mk_candidate, hs1, hs2, hs3, overlapFrac]
    norm_num [List.filter]
  · decide

/-! # Lemmas about the vector database -/

/-- A sum of squares is non-negative. -/
theorem sumSq_nonneg (v : List ℝ) : 0 ≤ sumSq v := by
  unfold sumSq
  apply List.sum_nonneg
  intro x hx
  obtain ⟨y, _, rfl⟩ := List.mem_map.mp hx
  exact mul_self_nonneg y

/-- The inner product of a vector with itself is its sum of squares. -/
theorem dotList_self (v : List ℝ) : dotList v v = sumSq v := by
  induction v with
  | nil => rfl
  | cons a t ih =>
    simp only [dotList, sumSq, List.zipWith_cons_cons, List.map_cons, List.sum_cons] at ih ⊢
    rw [ih]

/-- Arithmetic-mean bound on the inner product (works for unequal lengths
too, since extra coordinates only increase the right side). -/
theorem dotList_le_avg (a : List ℝ) : ∀ b, dotList a b ≤ (sumSq a + sumSq b) / 2 := by
  induction a with
  | nil =>
    intro b
    have h1 := sumSq_nonneg b
    have h0 : dotList [] b = 0 := rfl
    have h00 : sumSq ([] : List ℝ) = 0 := rfl
    rw [h0, h00]
    linarith
  | cons x xs ih =>
    intro b
    cases b with
    | nil =>
      have h1 := sumSq_nonneg (x :: xs)
      simp only [dotList, List.zipWith_nil_right, List.sum_nil, sumSq, List.map_nil,
        List.sum_nil] at h1 ⊢
      linarith
    | cons y ys =>
      have h2 := ih ys
      simp only [dotList, sumSq, List.zipWith_cons_cons, List.map_cons, List.sum_cons] at h2 ⊢
      nlinarith [sq_nonneg (x - y)]

/-- Dividing every coordinate divides the sum of squares by the square. -/
theorem sumSq_map_div (v : List ℝ) (c : ℝ) :
    sumSq (v.map (fun x => x / c)) = sumSq v / c^2 := by
  induction v with
  | nil => simp [sumSq]
  | cons a t ih =>
    simp only [List.map_cons, sumSq, List.sum_cons] at ih ⊢
    rw [ih]
    ring

/-- A non-zero vector normalizes to a unit vector. -/
theorem sumSq_normalize (v : List ℝ) (hv : sumSq v ≠ 0) :
    sumSq (normalize_vector v) = 1 := by
  have hpos : 0 < sumSq v := lt_of_le_of_ne (sumSq_nonneg v) (Ne.symm hv)
  have hs : Real.sqrt (sumSq v) ≠ 0 := ne_of_gt (Real.sqrt_pos.mpr hpos)
  unfold normalize_vector
  rw [if_neg hs, sumSq_map_div, Real.sq_sqrt (le_of_lt hpos)]
  exact div_self hv

/-- Sum of squares of the coordinatewise difference, for equal lengths. -/
theorem sumSq_zipWith_sub (a : List ℝ) : ∀ b, a.length = b.length →
    sumSq (List.zipWith (fun x y => x - y) a b) = sumSq a + sumSq b - 2 * dotList a b := by
  induction a with
  | nil =>
    intro b hb
    cases b with
    | nil => simp [sumSq, dotList]
    | cons y ys => simp at hb
  | cons x xs ih =>
    intro b hb
    cases b with
    | nil => simp at hb
    | cons y ys =>
      have hlen : xs.length = ys.length := by simpa using hb
      have h2 := ih ys hlen
      simp only [List.zipWith_cons_cons, sumSq, List.map_cons, List.sum_cons, dotList] at h2 ⊢
      rw [h2]
      ring

/-- A zero sum of squares forces every coordinate to vanish. -/
theorem sumSq_eq_zero_all (v : List ℝ) (h : sumSq v = 0) : ∀ x ∈ v, x = 0 := by
  induction v with
  | nil => simp
  | cons a t ih =>
    have h2 : (0:ℝ) ≤ sumSq t := sumSq_nonneg t
    simp only [sumSq, List.map_cons, List.sum_cons] at h
    have h2' : (0:ℝ) ≤ (t.map (fun x => x * x)).sum := h2
    have ha : a = 0 := by nlinarith
    have ht : sumSq t = 0 := by
      show (t.map (fun x => x * x)).sum = 0
      nlinarith
    intro x hx
    rcases List.mem_cons.mp hx with rfl | hx'
    · exact ha
    · exact ih ht x hx'

/-- Equal-length lists with vanishing coordinatewise difference are
equal. -/
theorem eq_of_zipWith_sub_zero (a : List ℝ) : ∀ b, a.length = b.length →
    (∀ z ∈ List.zipWith (fun x y => x - y) a b, z = 0) → a = b := by
  induction a with
  | nil =>
    intro b hb _
    cases b with
    | nil => rfl
    | cons y ys => simp at hb
  | cons x xs ih =>
    intro b hb hz
    cases b with
    | nil => simp at hb
    | cons y ys =>
      have h1 : x - y = 0 := hz _ (List.mem_cons_self _ _)
      have h2 : xs = ys := ih ys (by simpa using hb)
        (fun z hzz => hz z (List.mem_cons_of_mem _ hzz))
      have h3 : x = y := by linarith
      rw [h3, h2]

/-- Two unit vectors of equal length with inner product 1 coincide. -/
theorem eq_of_unit_dot_one (a b : List ℝ) (hlen : a.length = b.length)
    (ha : sumSq a = 1) (hb : sumSq b = 1) (hd : dotList a b = 1) : a = b := by
  have hz : sumSq (List.zipWith (fun x y => x - y) a b) = 0 := by
    rw [sumSq_zipWith_sub a b hlen, ha, hb, hd]
    ring
  exact eq_of_zipWith_sub_zero a b hlen (sumSq_eq_zero_all _ hz)

/-- Against a unit query, any stored row that is a unit vector distinct
from the query, or the zero vector, scores strictly below 1. -/
theorem dotList_lt_one (qn p : List ℝ) (hq : sumSq qn = 1)
    (hp : sumSq p = 1 ∨ sumSq p = 0) (hlen : qn.length = p.length) (hne : p ≠ qn) :
    dotList qn p < 1 := by
  rcases hp with hp1 | hp0
  · have hle : dotList qn p ≤ 1 := by
      have h := dotList_le_avg qn p
      rw [hq, hp1] at h
      linarith
    rcases lt_or_eq_of_le hle with h | h
    · exact h
    · exact absurd (eq_of_unit_dot_one qn p hlen hq hp1 h).symm hne
  · have h := dotList_le_avg qn p
    rw [hq, hp0] at h
    linarith

/-- If a list has an element whose key strictly dominates every other
element, the descending sort puts that element first. -/
theorem pySortDesc_head_unique_max {α κ : Type} [LinearOrder κ] (key : α → κ)
    (l : List α) (x : α) (hx : x ∈ l)
    (hmax : ∀ y ∈ l, y = x ∨ key y < key x) :
    ∃ t, pySortDesc key l = x :: t := by
  have hperm := pySortDesc_perm key l
  have hsorted := pySortDesc_sorted key l
  cases hs : pySortDesc key l with
  | nil =>
    exfalso
    have hmem : x ∈ pySortDesc key l := hperm.mem_iff.mpr hx
    rw [hs] at hmem
    exact List.not_mem_nil x hmem
  | cons h t =>
    rw [hs] at hperm hsorted
    have hh : h ∈ l := hperm.mem_iff.mp (List.mem_cons_self h t)
    rcases hmax h hh with heq | hlt
    · exact ⟨t, by rw [heq]⟩
    · exfalso
      have hx' : x ∈ h :: t := hperm.mem_iff.mpr hx
      rcases List.mem_cons.mp hx' with rfl | hxt
      · exact lt_irrefl _ hlt
      · exact absurd hlt (not_lt.mpr ((List.pairwise_cons.mp hsorted).1 x hxt))

/-! # Claim C8 -/

/-- Claim C8, confirmed (real-number model of the float arithmetic, so
"similarity approximately 1.0" is similarity exactly 1). Stored rows are
whatever `add_embeddings` produced: each has the index dimension and is
either a unit vector or the zero row a zero input leaves behind — the
two hypotheses below. Inserting a non-zero embedding of the index
dimension and immediately searching with that same embedding returns the
inserted chunk as the top result with similarity 1, provided no
previously stored row equals the inserted embedding's direction (an
exact duplicate direction also scores 1 and would tie; the model breaks
ties by insertion order, as the flat scan does). -/
theorem C8_round_trip (db : FaissVectorDatabase)
    (hlen : ∀ p ∈ db.stored, (p.2 : List ℝ).length = db.embedding_dimension)
    (hnorm : ∀ p ∈ db.stored, sumSq p.2 = 1 ∨ sumSq p.2 = 0)
    (cid : String) (v : List ℝ) (hd : v.length = db.embedding_dimension)
    (hv : sumSq v ≠ 0)
    (hdup : ∀ p ∈ db.stored, p.2 ≠ normalize_vector v)
    (k : Nat) (hk : 1 ≤ k) :
    ∃ (db' : FaissVectorDatabase) (rest : List (String × ℝ)),
      add_embeddings db [(cid, v)] = .ok (true, db') ∧
      search_dense db' v k = .ok ((cid, 1) :: rest) := by
  have hbne : (v.length != db.embedding_dimension) = false := by
    simp [hd]
  have hadd : add_embeddings db [(cid, v)] =
      .ok (true, ⟨db.embedding_dimension,
        db.stored ++ [(cid, normalize_vector v)]⟩) := by
    unfold add_embeddings
    have hfind : ([(cid, v)].find? (fun p => p.2.length != db.embedding_dimension)) = none := by
      simp [List.find?_cons, hbne]
    rw [hfind]
    rfl
  refine ⟨⟨db.embedding_dimension, db.stored ++ [(cid, normalize_vector v)]⟩, ?_⟩
  have hqn1 : sumSq (normalize_vector v) = 1 := sumSq_normalize v hv
  have hdot1 : dotList (normalize_vector v) (normalize_vector v) = 1 := by
    rw [dotList_self]
    exact hqn1
  have hstored : (db.stored ++ [(cid, normalize_vector v)]).isEmpty = false := by
    cases h : db.stored ++ [(cid, normalize_vector v)] with
    | nil => exact absurd h (by simp)
    | cons a t => rfl
  have hmem : ((cid, dotList (normalize_vector v) (normalize_vector v)) : String × ℝ) ∈
      (db.stored ++ [(cid, normalize_vector v)]).map
        (fun p => (p.1, dotList (normalize_vector v) p.2)) :=
    List.mem_map_of_mem _ (List.mem_append_right _ (List.mem_singleton.mpr rfl))
  have hmax : ∀ y ∈ (db.stored ++ [(cid, normalize_vector v)]).map
      (fun p => (p.1, dotList (normalize_vector v) p.2)),
      y = ((cid, dotList (normalize_vector v) (normalize_vector v)) : String × ℝ) ∨
      y.2 < ((cid, dotList (normalize_vector v) (normalize_vector v)) : String × ℝ).2 := by
    intro y hy
    obtain ⟨p, hp, rfl⟩ := List.mem_map.mp hy
    rcases List.mem_append.mp hp with hp1 | hp2
    · right
      show dotList (normalize_vector v) p.2 < dotList (normalize_vector v) (normalize_vector v)
      rw [hdot1]
      refine dotList_lt_one (normalize_vector v) p.2 hqn1 (hnorm p hp1) ?_ (hdup p hp1)
      rw [normalize_vector_length, hd, hlen p hp1]
    · left
      rw [List.mem_singleton.mp hp2]
  obtain ⟨t, ht⟩ := pySortDesc_head_unique_max (fun y => y.2) _ _ hmem hmax
  have hkt : 0 < min k (db.stored ++ [(cid, normalize_vector v)]).length := by
    refine lt_min (lt_of_lt_of_le Nat.zero_lt_one hk) ?_
    simp
  obtain ⟨m, hmin⟩ : ∃ m, min k (db.stored ++ [(cid, normalize_vector v)]).length = m + 1 :=
    ⟨min k (db.stored ++ [(cid, normalize_vector v)]).length - 1, by omega⟩
  refine ⟨t.take m, hadd, ?_⟩
  unfold search_dense
  rw [hstored]
  simp only [Bool.false_eq_true, if_false, hbne]
  rw [ht, hmin, List.take_succ_cons, hdot1]

/-- Witness for C8: the 2-dimensional index holding the unit row `[0, 1]`
receives the chunk `"b"` with embedding `[3, 4]`; searching `[3, 4]`
returns `"b"` first with similarity exactly 1. -/
theorem C8_round_trip_witness :
    ∃ (db' : FaissVectorDatabase) (rest : List (String × ℝ)),
      add_embeddings ⟨2, [(("a"), [0, 1])]⟩ [(("b"), [3, 4])] = .ok (true, db') ∧
      search_dense db' [3, 4] 1 = .ok ((("b"), 1) :: rest) := by
  have hs25 : sumSq ([3, 4] : List ℝ) = 25 := by
    simp [sumSq]
    norm_num
  have hsqrt : Real.sqrt (sumSq ([3, 4] : List ℝ)) = 5 := by
    rw [hs25, show (25 : ℝ) = 5^2 by norm_num, Real.sqrt_sq (by norm_num : (0:ℝ) ≤ 5)]
  have hnv : normalize_vector ([3, 4] : List ℝ) = [3/5, 4/5] := by
    unfold normalize_vector
    rw [hsqrt, if_neg (by norm_num : (5 : ℝ) ≠ 0)]
    norm_num
  refine C8_round_trip ⟨2, [(("a"), [0, 1])]⟩ ?_ ?_ ("b") [3, 4] (by simp) ?_ ?_ 1 le_rfl
  · intro p hp
    rw [List.mem_singleton.mp hp]
    rfl
  · intro p hp
    rw [List.mem_singleton.mp hp]
    left
    simp [sumSq]
  · rw [hs25]
    norm_num
  · intro p hp
    rw [List.mem_singleton.mp hp, hnv]
    simp
    norm_num
